import Mathlib

/-!
Verification of the turnover-extraction core (`company_extractor.py`).

The Python module is embedded shallowly:
* machine floats are modelled as exact decimal numbers (`Dec`, an integer
  mantissa with a power-of-ten denominator, interpreted into `ℚ` by
  `Dec.toQ`); every numeric value appearing in the verified claims is
  exactly representable, so the model agrees with CPython on them;
* Python's `f"{x:.2f}"` formatting is modelled by rounding half-to-even at
  two decimal places;
* the two regular expressions (`MONEY_RE` and the range pattern) are embedded
  as specialized backtracking matchers that follow CPython's `re` semantics
  (leftmost match, alternatives tried left to right, greedy quantifiers);
  matching is performed on the lowercased text, which is observationally
  equivalent to `re.IGNORECASE` matching on the original because every
  captured group is lowercased before use by the callers;
* `html.unescape` (Python standard library, identity on entity-free text)
  is not re-modelled; the texts quantified over stand for its output.
-/

/-- Whitespace recognized by `\s` and `str.strip` (ASCII range). -/
def pySpace (c : Char) : Bool :=
  c = ' ' || c = '\t' || c = '\n' || c = '\r' || c = '\x0b' || c = '\x0c'

/-- Word characters for the regex `\b` boundary (`[A-Za-z0-9_]`). -/
def isWordChar (c : Char) : Bool :=
  c.isAlpha || c.isDigit || c = '_'

/-- Lowercasing, per character (model of Python `str.lower`). -/
def lowerStr (s : String) : String :=
  String.mk (s.data.map Char.toLower)

/-- Python substring test `pat in s`. -/
def occursIn (pat : List Char) : List Char → Bool
  | [] => pat.isEmpty
  | c :: t => pat.isPrefixOf (c :: t) || occursIn pat t

/-- Fueled worker for `replaceAll` (fuel keeps the recursion structural). -/
def replaceAllF : ℕ → List Char → List Char → List Char → List Char
  | 0, s, _, _ => s
  | fuel + 1, s, pat, rep =>
    match s with
    | [] => []
    | c :: t =>
      if pat ≠ [] ∧ pat.isPrefixOf (c :: t) then
        rep ++ replaceAllF fuel ((c :: t).drop pat.length) pat rep
      else
        c :: replaceAllF fuel t pat rep

/-- Python `str.replace`: replace all non-overlapping occurrences, left to right. -/
def replaceAll (s pat rep : List Char) : List Char :=
  replaceAllF s.length s pat rep

/-- Python `str.strip` (whitespace from both ends). -/
def pyStrip (s : String) : String :=
  String.mk (((s.data.dropWhile pySpace).reverse.dropWhile pySpace).reverse)

/-- Python slice `l[a:b]`. -/
def sliceL (l : List Char) (a b : ℕ) : List Char :=
  (l.take b).drop a

/-- Python `a or b` for strings (the empty string is falsy). -/
def pyOrStr (a b : String) : String :=
  if a = "" then b else a

/-- `10 ^ e` as an integer. -/
def pow10 (e : ℕ) : ℤ :=
  ((10 ^ e : ℕ) : ℤ)

/-- An exact decimal number `m / 10 ^ e`: the model of the Python floats
flowing through the extractor (all of which are decimal-valued). -/
structure Dec where
  m : ℤ
  e : ℕ
deriving DecidableEq

/-- The rational value of a `Dec`. -/
def Dec.toQ (d : Dec) : ℚ :=
  (d.m : ℚ) / (pow10 d.e : ℚ)

/-- Embed an integer. -/
def Dec.ofInt (n : ℤ) : Dec :=
  ⟨n, 0⟩

/-- Exact comparison `d₁ < d₂` (cross-multiplied). -/
def Dec.blt (d₁ d₂ : Dec) : Bool :=
  d₁.m * pow10 d₂.e < d₂.m * pow10 d₁.e

/-- Exact comparison `d₁ ≤ d₂` (cross-multiplied). -/
def Dec.ble (d₁ d₂ : Dec) : Bool :=
  d₁.m * pow10 d₂.e ≤ d₂.m * pow10 d₁.e

/-- Exact addition. -/
def Dec.add (d₁ d₂ : Dec) : Dec :=
  ⟨d₁.m * pow10 d₂.e + d₂.m * pow10 d₁.e, d₁.e + d₂.e⟩

/-- Exact multiplication. -/
def Dec.mul (d₁ d₂ : Dec) : Dec :=
  ⟨d₁.m * d₂.m, d₁.e + d₂.e⟩

/-- Exact division by two (`x / 2 = 5 x / 10`). -/
def Dec.half (d : Dec) : Dec :=
  ⟨d.m * 5, d.e + 1⟩

/-- Round `a / b` (with `b > 0`) to the nearest integer, ties to even:
the rounding CPython applies when formatting a float with `.2f`. -/
def rheDiv (a b : ℤ) : ℤ :=
  let f := Int.fdiv a b
  let r := a - f * b
  if 2 * r < b then f
  else if b < 2 * r then f + 1
  else if f % 2 = 0 then f else f + 1

/-- `'0'`–`'9'` for a digit value. -/
def digitChar : ℕ → Char
  | 0 => '0' | 1 => '1' | 2 => '2' | 3 => '3' | 4 => '4'
  | 5 => '5' | 6 => '6' | 7 => '7' | 8 => '8' | _ => '9'

/-- Fueled decimal rendering of a natural number. -/
def natDigitsAux : ℕ → ℕ → List Char
  | 0, _ => []
  | fuel + 1, n =>
    if n < 10 then [digitChar n]
    else natDigitsAux fuel (n / 10) ++ [digitChar (n % 10)]

/-- Decimal digits of a natural number, most significant first (Python `str(int)`). -/
def natDigits (n : ℕ) : List Char :=
  natDigitsAux (n + 1) n

/-- Format a natural number of hundredths as `d.dd`. -/
def natFmt2 (n : ℕ) : String :=
  String.mk (natDigits (n / 100) ++ '.' ::
    (if n % 100 < 10 then '0' :: natDigits (n % 100) else natDigits (n % 100)))

/-- Model of Python `f"{x:.2f}"` on an exact decimal. -/
def fmt2 (d : Dec) : String :=
  let n := rheDiv (d.m * 100) (pow10 d.e)
  if n < 0 then "-" ++ natFmt2 n.natAbs else natFmt2 n.toNat

/-- `FX` rate table (source line 70). -/
def FX : List (String × ℤ) :=
  [("USD", 83), ("EUR", 90), ("GBP", 105), ("INR", 1)]

/-- `UNIT` magnitude-factor table (source lines 71–81). -/
def UNIT : List (String × ℤ) :=
  [("cr", 10000000), ("crore", 10000000), ("crores", 10000000),
   ("lakh", 100000), ("lakhs", 100000),
   ("million", 1000000), ("m", 1000000),
   ("billion", 1000000000), ("bn", 1000000000)]

/-- Python `dict.get(key, 1.0)` over an association list. -/
def getD1 : List (String × ℤ) → String → ℤ
  | [], _ => 1
  | (k, v) :: t, s => if s = k then v else getD1 t s

/-- `UNIT.get((unit or "").lower(), 1.0)` (source line 180). -/
def unitFactor (unit : Option String) : ℤ :=
  getD1 UNIT (lowerStr (unit.getD ""))

/-- `(currency or "INR").lower().replace("rs.", "inr").replace("rs", "inr")`
(source line 181). -/
def normCur (currency : Option String) : String :=
  String.mk (replaceAll (replaceAll (lowerStr (pyOrStr (currency.getD "") "INR")).data
    "rs.".data "inr".data) "rs".data "inr".data)

/-- Every currency token the normalizer recognizes (lowercased): the `FX`
codes, the symbols, and the `rs`-alias forms handled by the replace chain. -/
def KNOWN_CURRENCY_TOKENS : List String :=
  ["$", "usd", "€", "eur", "£", "gbp", "inr", "rs", "rs."]

/-- Well-formed canonical display string: digits, a dot, two digits, " Cr". -/
def isCanonicalDisplay (s : String) : Bool :=
  let l := s.data
  let ip := l.takeWhile Char.isDigit
  let rest := l.drop ip.length
  !ip.isEmpty &&
  (rest.length = 6) && (rest.headD 'x' = '.') &&
  ((rest.drop 1).headD 'x').isDigit && ((rest.drop 2).headD 'x').isDigit &&
  (rest.drop 3 = [' ', 'C', 'r'])

/-- The exchange-rate branch of `to_inr_cr` (source lines 182–189). -/
def curRate (currency : Option String) : ℤ :=
  let cur := normCur currency
  if cur = "$" ∨ cur = "usd" then 83
  else if cur = "€" ∨ cur = "eur" then 90
  else if cur = "£" ∨ cur = "gbp" then 105
  else 1

/-- The numeric value `(amount * mul * rate) / 10_000_000` computed inside
`to_inr_cr` before formatting (source line 190). -/
def to_inr_cr_val (amount : Dec) (unit currency : Option String) : Dec :=
  ⟨amount.m * unitFactor unit * curRate currency, amount.e + 7⟩

/-- `to_inr_cr` (source lines 179–190): canonical display string in crore INR. -/
def to_inr_cr (amount : Dec) (unit currency : Option String) : String :=
  fmt2 (to_inr_cr_val amount unit currency) ++ " Cr"

/-- Leading-digit count of a char list. -/
def digitRunLen (l : List Char) : ℕ :=
  (l.takeWhile Char.isDigit).length

/-- Numeric value of a digit string (most significant first). -/
def digitsToNat (l : List Char) : ℕ :=
  l.foldl (fun n c => 10 * n + (c.toNat - 48)) 0

/-- `float(numstr.replace(",", ""))` for a numeral matched by the `num` group:
digits and commas, optionally followed by `.` and digits (source line 204). -/
def parseDec (l : List Char) : Dec :=
  let noComma := l.filter (fun c => c ≠ ',')
  let intPart := noComma.takeWhile (fun c => c ≠ '.')
  let fracPart := (noComma.dropWhile (fun c => c ≠ '.')).drop 1
  ⟨(digitsToNat (intPart ++ fracPart) : ℤ), fracPart.length⟩

/-- One match of `MONEY_RE` (source lines 83–89): span and captured groups.
Groups are stored as they read in the lowercased text. -/
structure MMatch where
  mstart : ℕ
  mend : ℕ
  numStr : List Char
  unit : Option (List Char)
  cur1 : Option (List Char)
  cur2 : Option (List Char)
deriving DecidableEq

/-- Alternatives of the `cur1` group, in the pattern's order
(`₹|\$|€|£|inr|usd|eur|gbp|rs\.?`, the greedy `\.?` tried with the dot first). -/
def cur1Alts : List (List Char) :=
  ["₹".data, "$".data, "€".data, "£".data, "inr".data, "usd".data,
   "eur".data, "gbp".data, "rs.".data, "rs".data]

/-- Alternatives of the `unit` group, in the pattern's order. -/
def unitAlts : List (List Char) :=
  ["cr".data, "crore".data, "crores".data, "lakh".data, "lakhs".data,
   "million".data, "m".data, "mn".data, "billion".data, "bn".data]

/-- Alternatives of the `cur2` group, in the pattern's order. -/
def cur2Alts : List (List Char) :=
  ["inr".data, "usd".data, "eur".data, "gbp".data]

/-- First alternative that is a prefix of `s`, with the rest of `s`.
This is how a backtracking engine resolves an alternation whose
continuation always succeeds. -/
def firstPrefixAlt : List (List Char) → List Char → Option (List Char × List Char)
  | [], _ => none
  | a :: r, s =>
    if a.isPrefixOf s then some (a, s.drop a.length) else firstPrefixAlt r s

/-- Greedy parse of the required `num` group `\d[\d,]*(?:\.\d+)?`.
Nothing after it in `MONEY_RE` can force backtracking into it (everything
following is optional, and no later token can start with a digit or comma),
so maximal munch is exact. Returns the matched numeral and the rest. -/
def parseNum : List Char → Option (List Char × List Char)
  | [] => none
  | c :: t =>
    if c.isDigit then
      let body := t.takeWhile (fun x => x.isDigit || x = ',')
      let rest1 := t.drop body.length
      match rest1 with
      | '.' :: d :: r2 =>
        if d.isDigit then
          let frac := (d :: r2).takeWhile Char.isDigit
          some (c :: body ++ '.' :: frac, (d :: r2).drop frac.length)
        else some (c :: body, rest1)
      | _ => some (c :: body, rest1)
    else none

/-- After the `num` group: `\s*(?P<unit>...)?\s*(?P<cur2>...)?`.
All parts are optional, so this always succeeds; each alternation takes the
first alternative that fits (the continuation always succeeds). -/
def afterNum (s : List Char) :
    Option (List Char) × Option (List Char) × List Char :=
  let s1 := s.dropWhile pySpace
  match firstPrefixAlt unitAlts s1 with
  | some (u, s2) =>
    let s3 := s2.dropWhile pySpace
    match firstPrefixAlt cur2Alts s3 with
    | some (c2, s4) => (some u, some c2, s4)
    | none => (some u, none, s3)
  | none =>
    match firstPrefixAlt cur2Alts s1 with
    | some (c2, s4) => (none, some c2, s4)
    | none => (none, none, s1)

/-- `\s*` then the `num` group then the tail of the pattern, with the given
`cur1` capture. -/
def numTail (c1 : Option (List Char)) (s : List Char) :
    Option (List Char × Option (List Char) × Option (List Char) × Option (List Char) × List Char) :=
  let s1 := s.dropWhile pySpace
  match parseNum s1 with
  | none => none
  | some (numStr, s2) =>
    let (u, c2, rest) := afterNum s2
    some (numStr, u, c1, c2, rest)

/-- Try the `cur1` alternatives in order (present before absent), each with
the continuation `numTail`; a backtracking engine keeps the first that lets
the rest of the pattern succeed. -/
def tryCur1 : List (List Char) → List Char →
    Option (List Char × Option (List Char) × Option (List Char) × Option (List Char) × List Char)
  | [], s => numTail none s
  | a :: r, s =>
    match (if a.isPrefixOf s then numTail (some a) (s.drop a.length) else none) with
    | some g => some g
    | none => tryCur1 r s

/-- Attempt `MONEY_RE` at the start of `s`. Returns the groups and the
unconsumed rest on success. -/
def matchAt (s : List Char) :
    Option (List Char × Option (List Char) × Option (List Char) × Option (List Char) × List Char) :=
  tryCur1 cur1Alts s

/-- Fueled scan implementing `MONEY_RE.finditer`: try every position left to
right, emit non-overlapping matches, resume after each match. -/
def moneyScan : ℕ → List Char → ℕ → List MMatch
  | 0, _, _ => []
  | fuel + 1, s, pos =>
    match matchAt s with
    | some (numStr, u, c1, c2, rest) =>
      let consumed := s.length - rest.length
      ⟨pos, pos + consumed, numStr, u, c1, c2⟩ :: moneyScan fuel rest (pos + consumed)
    | none =>
      match s with
      | [] => []
      | _ :: t => moneyScan fuel t (pos + 1)

/-- `MONEY_RE.finditer` over a (lowercased) text. -/
def moneyFinditer (s : List Char) : List MMatch :=
  moneyScan s.length s 0

/-- A word-bounded occurrence of the literal `w` at the head of `s`
(`prev` is the character just before `s`). All literals used start and end
with word characters, so `\b` means: neighbour absent or not a word char. -/
def litHere (w : List Char) (prev : Option Char) (s : List Char) : Bool :=
  (match prev with | none => true | some c => !isWordChar c) &&
  w.isPrefixOf s &&
  (match s.drop w.length with | [] => true | c :: _ => !isWordChar c)

/-- `\d{2,4}\b` at the head of `r`: with a leading digit run of length `d`,
only consuming the whole run can satisfy the trailing boundary, so the
existential over `{2,4}` reduces to `2 ≤ d ≤ 4`. -/
def fyDigits (r : List Char) : Bool :=
  let d := digitRunLen r
  2 ≤ d && d ≤ 4 &&
  (match r.drop d with | [] => true | c :: _ => !isWordChar c)

/-- `\bfy\d{2,4}\b` or `\bfy\s\d{2,4}\b` at the head of `s`. -/
def fyHere (prev : Option Char) (s : List Char) : Bool :=
  (match prev with | none => true | some c => !isWordChar c) &&
  (match s with
   | 'f' :: 'y' :: rest =>
     fyDigits rest ||
     (match rest with
      | c :: rest2 => pySpace c && fyDigits rest2
      | [] => false)
   | _ => false)

/-- One position of the context-vocabulary search
`\b(turnover|revenue|sales|income|annual report|financial statement|fy\d{2,4}|fy\s\d{2,4})\b`
(source line 202). -/
def ctxHere (prev : Option Char) (s : List Char) : Bool :=
  litHere "turnover".data prev s || litHere "revenue".data prev s ||
  litHere "sales".data prev s || litHere "income".data prev s ||
  litHere "annual report".data prev s || litHere "financial statement".data prev s ||
  fyHere prev s

/-- Scan a window for the context vocabulary (`re.search` truthiness). -/
def ctxScan (prev : Option Char) : List Char → Bool
  | [] => false
  | c :: t => ctxHere prev (c :: t) || ctxScan (some c) t

/-- The context gate of the primary extractor: the window must contain
turnover-indicating vocabulary. -/
def contextGate (w : List Char) : Bool :=
  ctxScan none w

/-- One position of the scoring search `\b(turnover|revenue|annual turnover)\b`
(source line 211). -/
def scoreHere (prev : Option Char) (s : List Char) : Bool :=
  litHere "turnover".data prev s || litHere "revenue".data prev s ||
  litHere "annual turnover".data prev s

/-- Scan a window for the scoring vocabulary. -/
def scoreScan (prev : Option Char) : List Char → Bool
  | [] => false
  | c :: t => scoreHere prev (c :: t) || scoreScan (some c) t

/-- The `+1.0` context bonus test of the primary extractor. -/
def scoreGate (w : List Char) : Bool :=
  scoreScan none w

/-- The lowercased character list an extractor works on (`t.lower()`). -/
def lowOf (t : String) : List Char :=
  (lowerStr t).data

/-- The context window of a match: 80 characters either side, clipped
(source lines 199–201). -/
def windowOf (low : List Char) (m : MMatch) : List Char :=
  sliceL low (m.mstart - 80) (min low.length (m.mend + 80))

/-- `m.group("cur1") or m.group("cur2")` (source line 206). -/
def curOf (m : MMatch) : Option (List Char) :=
  match m.cur1 with
  | some c => some c
  | none => m.cur2

/-- The parsed numeric value of a match (source line 204). -/
def numValOf (m : MMatch) : Dec :=
  parseDec m.numStr

/-- The context-vocabulary gate applied to a match (source line 202). -/
def keepGate (low : List Char) (m : MMatch) : Bool :=
  contextGate (windowOf low m)

/-- The bare-small-number filter (source line 207): keep unless the match has
no unit, no currency, and a value below one million. -/
def keepSize (m : MMatch) : Bool :=
  m.unit.isSome || (curOf m).isSome || !(numValOf m).blt ⟨1000000, 0⟩

/-- The canonical value of a match (source line 209). -/
def matchVal (m : MMatch) : String :=
  to_inr_cr (numValOf m) (m.unit.map String.mk) ((curOf m).map String.mk)

/-- The score of a match (source lines 210–212):
base 1.0, +1.0 for a unit, +0.5 for a currency, +1.0 for scoring vocabulary
in the window. -/
def matchScore (low : List Char) (m : MMatch) : Dec :=
  ((((⟨1, 0⟩ : Dec).add
    (if m.unit.isSome then ⟨1, 0⟩ else ⟨0, 0⟩)).add
    (if (curOf m).isSome then ⟨5, 1⟩ else ⟨0, 0⟩)).add
    (if scoreGate (windowOf low m) then ⟨1, 0⟩ else ⟨0, 0⟩))

/-- The best-candidate update of the extractor's loop, after the two
`continue` guards: keep the first strictly-better-scoring value
(source lines 213–215). -/
def pickStep (low : List Char) (acc : String × Dec) (m : MMatch) : String × Dec :=
  if acc.2.blt (matchScore low m) then (matchVal m, matchScore low m) else acc

/-- One iteration of the extractor's loop (source lines 198–215): the
context-vocabulary guard, then the bare-small-number guard, then the
best-candidate update. -/
def loopStep (low : List Char) (acc : String × Dec) (m : MMatch) : String × Dec :=
  if keepGate low m then
    if keepSize m then pickStep low acc m
    else acc
  else acc

/-- `extract_turnover_in_cr` (source lines 193–216): fold over all matches,
skipping gated-out ones, keeping the first strictly-best-scoring value. -/
def extract_turnover_in_cr (t : String) : String :=
  let low := lowOf t
  ((moneyFinditer low).foldl (loopStep low) ("", (⟨-1, 0⟩ : Dec))).1

/-- The matches surviving the context-vocabulary gate. -/
def gatedMatches (t : String) : List MMatch :=
  (moneyFinditer (lowOf t)).filter (keepGate (lowOf t))

/-- The matches surviving both the context gate and the size filter: the
candidates the extractor scores. -/
def survivingMatches (t : String) : List MMatch :=
  (gatedMatches t).filter keepSize

/-- The maximal score of a list of matches (`-1` for the empty list, the
extractor's initial best score). -/
def maxScoreL (low : List Char) (l : List MMatch) : Dec :=
  l.foldl (fun b m => if b.blt (matchScore low m) then matchScore low m else b) ⟨-1, 0⟩

/-- From the specification's words: the highest-scoring surviving match,
ties resolved in favour of the first encountered in scan order. -/
def bestSurvivor (t : String) : Option MMatch :=
  (survivingMatches t).find?
    (fun m => (maxScoreL (lowOf t) (survivingMatches t)).ble (matchScore (lowOf t) m))

/-- Alternatives of the range pattern's unit groups (same list as `MONEY_RE`). -/
def rangeUnitAlts : List (List Char) := unitAlts

/-- Attempt the range pattern
`(\d[\d,]*(?:\.\d+)?)\s*(unit)\s*(?:to|-)\s*(\d[\d,]*(?:\.\d+)?)\s*(unit)`
at the start of `s`. The first unit group needs genuine backtracking (its
continuation `\s*(?:to|-)` can fail), so each alternative is tried with the
continuation; nothing else can backtrack (see `parseNum`). -/
def rangeTail (s : List Char) : Option (List Char × List Char) :=
  let s1 := s.dropWhile pySpace
  match
    (if "to".data.isPrefixOf s1 then some (s1.drop 2)
     else if "-".data.isPrefixOf s1 then some (s1.drop 1)
     else none) with
  | none => none
  | some s2 =>
    let s3 := s2.dropWhile pySpace
    match parseNum s3 with
    | none => none
    | some (num2, s4) =>
      let s5 := s4.dropWhile pySpace
      match firstPrefixAlt rangeUnitAlts s5 with
      | none => none
      | some (u2, _) => some (num2, u2)

/-- Try the first unit group's alternatives in order, each with the rest of
the pattern as continuation. -/
def rangeUnits : List (List Char) → List Char →
    Option (List Char × List Char × List Char)
  | [], _ => none
  | a :: r, s =>
    match (if a.isPrefixOf s then rangeTail (s.drop a.length) else none) with
    | some (num2, u2) => some (a, num2, u2)
    | none => rangeUnits r s

/-- Attempt the whole range pattern at the start of `s`:
returns `(num1, unit1, num2, unit2)`. -/
def rangeMatchAt (s : List Char) :
    Option (List Char × List Char × List Char × List Char) :=
  match parseNum s with
  | none => none
  | some (num1, s1) =>
    match rangeUnits rangeUnitAlts (s1.dropWhile pySpace) with
    | none => none
    | some (u1, num2, u2) => some (num1, u1, num2, u2)

/-- `re.search` for the range pattern: first position, left to right, at
which the pattern matches. -/
def rangeSearch : ℕ → List Char → Option (List Char × List Char × List Char × List Char)
  | 0, _ => none
  | fuel + 1, s =>
    match rangeMatchAt s with
    | some g => some g
    | none =>
      match s with
      | [] => none
      | _ :: t => rangeSearch fuel t

/-- `float(to_inr_cr(...).split()[0])`: the formatted canonical value read
back as a number, i.e. the value rounded to two decimals
(source lines 230–231). -/
def roundback (v : Dec) : Dec :=
  ⟨rheDiv (v.m * 100) (pow10 v.e), 2⟩

/-- `extract_range_turnover_in_cr` (source lines 219–232): mean of the two
canonicalized bounds of the first `<num><unit> to <num><unit>` span
(separator `to` or a dash). -/
def extract_range_turnover_in_cr (t : String) : String :=
  let low := lowOf t
  match rangeSearch (low.length + 1) low with
  | none => ""
  | some (num1, u1, num2, u2) =>
    let lo := roundback (to_inr_cr_val (parseDec num1) (some (String.mk u1)) (some "INR"))
    let hi := roundback (to_inr_cr_val (parseDec num2) (some (String.mk u2)) (some "INR"))
    fmt2 ((lo.add hi).half) ++ " Cr"

/-- `NAME_MAP` (source lines 48–58): keyword groups to category triples,
in priority order. -/
def NAME_MAP : List (List String × (String × String × String)) :=
  [(["paint", "coating"], ("Manufacturing", "Consumer Goods", "paint products")),
   (["chemical"], ("Manufacturing", "Industrial", "industrial chemicals")),
   (["logistics", "transport"], ("Transportation", "Logistics", "freight")),
   (["electrical", "electronics"], ("Retail", "Specialty", "electronics retail")),
   (["hardware"], ("Retail", "Specialty", "hardware retail")),
   (["trader", "trading"], ("Retail", "Store Retail", "general trading")),
   (["general store", "general stores"], ("Retail", "Store Retail", "general store")),
   (["polymer"], ("Manufacturing", "Industrial", "polymer products")),
   (["bitumen"], ("Manufacturing", "Industrial", "bitumen products"))]

/-- `ESTIMATE_BY_KEYWORD` (source lines 60–68). -/
def ESTIMATE_BY_KEYWORD : List (List String × ℤ) :=
  [(["logistics", "transport"], 25),
   (["bitumen", "polymer", "chemical"], 18),
   (["paint", "coating"], 12),
   (["electrical", "electronics"], 8),
   (["hardware"], 7),
   (["trader", "trading"], 6),
   (["store"], 5)]

/-- Does some keyword of the group occur in the haystack
(`any(k in hay for k in keys)`)? -/
def groupHits (hay : List Char) (keys : List String) : Bool :=
  keys.any (fun k => occursIn k.data hay)

/-- First-match-wins walk of `NAME_MAP` (source lines 165–168). -/
def inferGo (hay : List Char) :
    List (List String × (String × String × String)) → String × String × String
  | [] => ("", "", "")
  | (keys, mapped) :: t => if groupHits hay keys then mapped else inferGo hay t

/-- `infer_category` (source lines 163–168). -/
def infer_category (company text : String) : String × String × String :=
  inferGo (lowerStr (company ++ " " ++ text)).data NAME_MAP

/-- First-match-wins walk of `ESTIMATE_BY_KEYWORD` (source lines 171–176). -/
def estimateGo (c : List Char) : List (List String × ℤ) → String
  | [] => "10.00 Cr"
  | (keys, v) :: t =>
    if groupHits c keys then fmt2 ⟨v, 0⟩ ++ " Cr" else estimateGo c t

/-- `estimate_turnover_in_cr` (source lines 171–176). -/
def estimate_turnover_in_cr (company_name : String) : String :=
  estimateGo (lowerStr company_name).data ESTIMATE_BY_KEYWORD

/-- One parsed input row (the `InputRecord` of the data model). -/
structure InputRecord where
  name : String
  city : String
  turnover_raw : String
deriving DecidableEq

/-- One output row (the `OutputRecord` of the data model). -/
structure OutputRecord where
  company_name : String
  city : String
  turnover_in_cr : String
  category : String
  sub_category : String
  micro_category : String
deriving DecidableEq

/-- A `csv.DictReader` row: header-name/value pairs with exact
(case-sensitive) keys, as Python dicts have. -/
def Row := List (String × String)

/-- `row.get(k)` with missing keys giving the empty (falsy) value. -/
def rowGet (row : Row) (k : String) : String :=
  (List.lookup k row).getD ""

/-- The name field of a row before filtering:
`(row.get("company_name") or row.get("name") or "").strip()` (source line 104). -/
def nameOfRow (row : Row) : String :=
  pyStrip (pyOrStr (rowGet row "company_name") (rowGet row "name"))

/-- The city field of a row: `(row.get("city") or "").strip()` (source line 105). -/
def cityOfRow (row : Row) : String :=
  pyStrip (rowGet row "city")

/-- The raw-turnover field of a row (source lines 106–112). -/
def rawOfRow (row : Row) : String :=
  pyStrip (pyOrStr (rowGet row "turnover")
    (pyOrStr (rowGet row "revenue")
      (pyOrStr (rowGet row "annual_turnover") (rowGet row "turnover_in_cr"))))

/-- The per-row step of `read_rows_from_reader`: parse, keep only rows with
non-blank name and city (source lines 113–114). -/
def parseRow (row : Row) : Option InputRecord :=
  if nameOfRow row ≠ "" ∧ cityOfRow row ≠ "" then
    some ⟨nameOfRow row, cityOfRow row, rawOfRow row⟩
  else none

/-- `read_rows_from_reader` (source lines 101–115). -/
def read_rows_from_reader (reader : List Row) : List InputRecord :=
  reader.filterMap parseRow

/-- `FAST_MODE` (source line 27): network evidence gathering is disabled. -/
def FAST_MODE : Bool := true

/-- `process_one` (source lines 235–280). With `FAST_MODE` true the search
branch is skipped, so the gathered evidence text is `" ".join([]) = ""`. -/
def process_one (r : InputRecord) : OutputRecord :=
  let text := ""
  let t0 := pyOrStr (extract_turnover_in_cr text) (extract_range_turnover_in_cr text)
  let t1 :=
    if t0 = "" ∧ r.turnover_raw ≠ "" then
      pyOrStr (extract_turnover_in_cr r.turnover_raw)
        (extract_range_turnover_in_cr r.turnover_raw)
    else t0
  let turnover := if t1 = "" then estimate_turnover_in_cr r.name else t1
  let c := infer_category r.name text
  ⟨r.name, r.city, turnover, c.1, c.2.1, c.2.2⟩

/-- `process_rows` (source lines 283–292), parametrized by the order in
which the worker pool completes the per-record futures: the slot table
`out = [None] * len(rows)` is filled at index `futures[fut]` as each future
completes, then read out in input order. -/
def process_rows_completion (rows : List InputRecord) (order : List ℕ) :
    List (Option OutputRecord) :=
  let slots := order.foldl
    (fun f i => Function.update f i (some (process_one (rows.getD i ⟨"", "", ""⟩))))
    (fun _ => none)
  (List.range rows.length).map slots

theorem pow10_pos (e : ℕ) : 0 < pow10 e := by
  unfold pow10
  exact_mod_cast Nat.pos_pow_of_pos e (by norm_num)

theorem pow10_q_pos (e : ℕ) : (0 : ℚ) < ((pow10 e : ℤ) : ℚ) := by
  exact_mod_cast pow10_pos e

theorem pow10_add (x y : ℕ) : pow10 (x + y) = pow10 x * pow10 y := by
  unfold pow10
  push_cast [pow_add]
  ring

theorem Dec.blt_iff (d₁ d₂ : Dec) : d₁.blt d₂ = true ↔ d₁.toQ < d₂.toQ := by
  unfold Dec.blt Dec.toQ
  rw [decide_eq_true_eq, div_lt_div_iff₀ (pow10_q_pos _) (pow10_q_pos _)]
  constructor <;> intro h <;> exact_mod_cast h

theorem Dec.ble_iff (d₁ d₂ : Dec) : d₁.ble d₂ = true ↔ d₁.toQ ≤ d₂.toQ := by
  unfold Dec.ble Dec.toQ
  rw [decide_eq_true_eq, div_le_div_iff₀ (pow10_q_pos _) (pow10_q_pos _)]
  constructor <;> intro h <;> exact_mod_cast h

theorem getD1_pos (l : List (String × ℤ)) (s : String)
    (h : ∀ p ∈ l, 0 < p.2) : 0 < getD1 l s := by
  induction l with
  | nil => norm_num [getD1]
  | cons p t ih =>
    obtain ⟨k, v⟩ := p
    simp only [getD1]
    split
    · exact h (k, v) (by simp)
    · exact ih (fun q hq => h q (by simp [hq]))

theorem unitFactor_pos (u : Option String) : 0 < unitFactor u :=
  getD1_pos _ _ (by decide)

theorem curRate_pos (c : Option String) : 0 < curRate c := by
  simp only [curRate]
  split
  · norm_num
  · split
    · norm_num
    · split <;> norm_num

theorem to_inr_cr_val_mono (unit currency : Option String) (a b : Dec)
    (h : a.toQ < b.toQ) :
    (to_inr_cr_val a unit currency).toQ < (to_inr_cr_val b unit currency).toQ := by
  unfold to_inr_cr_val Dec.toQ at *
  rw [div_lt_div_iff₀ (pow10_q_pos _) (pow10_q_pos _)] at h ⊢
  rw [pow10_add, pow10_add]
  have hF : (0 : ℚ) < ((unitFactor unit : ℤ) : ℚ) := by exact_mod_cast unitFactor_pos unit
  have hR : (0 : ℚ) < ((curRate currency : ℤ) : ℚ) := by exact_mod_cast curRate_pos currency
  have hP : (0 : ℚ) < ((pow10 7 : ℤ) : ℚ) := pow10_q_pos 7
  have key : ((a.m : ℚ) * pow10 b.e) * (unitFactor unit * curRate currency * pow10 7) <
      ((b.m : ℚ) * pow10 a.e) * (unitFactor unit * curRate currency * pow10 7) := by
    apply mul_lt_mul_of_pos_right _ (by positivity)
    exact_mod_cast h
  calc ((a.m * unitFactor unit * curRate currency : ℤ) : ℚ) * ((pow10 b.e * pow10 7 : ℤ) : ℚ)
      = ((a.m : ℚ) * pow10 b.e) * (unitFactor unit * curRate currency * pow10 7) := by
        push_cast; ring
    _ < ((b.m : ℚ) * pow10 a.e) * (unitFactor unit * curRate currency * pow10 7) := key
    _ = ((b.m * unitFactor unit * curRate currency : ℤ) : ℚ) * ((pow10 a.e * pow10 7 : ℤ) : ℚ) := by
        push_cast; ring

/-- C1 (amended): the normalizer's calibration values are
`to_inr_cr(1, "crore", "INR") = "1.00 Cr"` and
`to_inr_cr(1, "million", "USD") = "8.30 Cr"` (1 million USD at the fixed
rate 83 is 8.3 crore INR, not 83 crore), and for every fixed (unit,
currency) pair the numeric value computed by the normalizer is strictly
monotonically increasing in the amount argument. -/
theorem C1_normalizer_calibration_monotone :
    to_inr_cr ⟨1, 0⟩ (some "crore") (some "INR") = "1.00 Cr" ∧
    to_inr_cr ⟨1, 0⟩ (some "million") (some "USD") = "8.30 Cr" ∧
    ∀ (unit currency : Option String) (a b : Dec), a.toQ < b.toQ →
      (to_inr_cr_val a unit currency).toQ < (to_inr_cr_val b unit currency).toQ :=
  ⟨by decide, by decide, to_inr_cr_val_mono⟩

/-- C1 (counterexample): the claimed calibration value
`to_inr_cr(1, "million", "USD") = "83.00 Cr"` is false: the code divides by
the crore scale after applying the USD rate, giving `"8.30 Cr"`. -/
theorem C1_counterexample :
    to_inr_cr ⟨1, 0⟩ (some "million") (some "USD") = "8.30 Cr" ∧
    to_inr_cr ⟨1, 0⟩ (some "million") (some "USD") ≠ "83.00 Cr" := by
  constructor <;> decide

/-- C1 (witness): the monotonicity part applied at a concrete input. -/
theorem C1_witness :
    (to_inr_cr_val ⟨1, 0⟩ (some "crore") none).toQ <
      (to_inr_cr_val ⟨2, 0⟩ (some "crore") none).toQ :=
  C1_normalizer_calibration_monotone.2.2 (some "crore") none ⟨1, 0⟩ ⟨2, 0⟩ (by
    unfold Dec.toQ pow10
    norm_num)

theorem isPrefixOf_append_self (r x : List Char) : r.isPrefixOf (r ++ x) = true := by
  induction r with
  | nil => simp [List.isPrefixOf]
  | cons a t ih => simp [List.isPrefixOf, ih]

theorem occursIn_nil_pat (s : List Char) : occursIn [] s = true := by
  cases s <;> simp [occursIn, List.isPrefixOf]

theorem occursIn_of_isPrefixOf {pat s : List Char} (h : pat.isPrefixOf s = true) :
    occursIn pat s = true := by
  cases s with
  | nil =>
    cases pat with
    | nil => rfl
    | cons a t => simp [List.isPrefixOf] at h
  | cons c t => simp [occursIn, h]

theorem occursIn_append_self (r x : List Char) : occursIn r (r ++ x) = true :=
  occursIn_of_isPrefixOf (isPrefixOf_append_self r x)

theorem occursIn_cons {p t : List Char} (c : Char) (h : occursIn p t = true) :
    occursIn p (c :: t) = true := by
  simp [occursIn, h]

theorem replaceAllF_of_not_occurs (rep : List Char) :
    ∀ (fuel : ℕ) (s pat : List Char), s.length ≤ fuel →
      occursIn pat s = false → replaceAllF fuel s pat rep = s := by
  intro fuel
  induction fuel with
  | zero => intro s pat _ _; rfl
  | succ n ih =>
    intro s pat hle hno
    cases s with
    | nil => rfl
    | cons c t =>
      simp only [occursIn, Bool.or_eq_false_iff] at hno
      simp only [replaceAllF]
      rw [if_neg (fun hcon => by simp [hno.1] at hcon)]
      have ht : t.length ≤ n := by
        have := hle
        simp only [List.length_cons] at this
        omega
      rw [ih t pat ht hno.2]

theorem replaceAllF_occurs_rep (rep : List Char) :
    ∀ (fuel : ℕ) (s pat : List Char), s.length ≤ fuel → pat ≠ [] →
      occursIn pat s = true → occursIn rep (replaceAllF fuel s pat rep) = true := by
  intro fuel
  induction fuel with
  | zero =>
    intro s pat hle hp hocc
    have hs : s = [] := List.eq_nil_of_length_eq_zero (Nat.le_zero.mp hle)
    subst hs
    simp [occursIn, List.isEmpty_iff] at hocc
    exact absurd hocc hp
  | succ n ih =>
    intro s pat hle hp hocc
    cases s with
    | nil =>
      simp [occursIn, List.isEmpty_iff] at hocc
      exact absurd hocc hp
    | cons c t =>
      simp only [replaceAllF]
      by_cases hpre : pat.isPrefixOf (c :: t) = true
      · rw [if_pos ⟨hp, hpre⟩]
        exact occursIn_append_self rep _
      · rw [if_neg (fun hcon => hpre hcon.2)]
        simp only [occursIn, Bool.or_eq_true] at hocc
        rcases hocc with hocc | hocc
        · exact absurd hocc hpre
        · have ht : t.length ≤ n := by
            have := hle
            simp only [List.length_cons] at this
            omega
          exact occursIn_cons c (ih t pat ht hp hocc)

theorem replaceAll_of_not_occurs (s pat rep : List Char)
    (h : occursIn pat s = false) : replaceAll s pat rep = s :=
  replaceAllF_of_not_occurs rep s.length s pat le_rfl h

theorem replaceAll_occurs_rep (s pat rep : List Char) (hp : pat ≠ [])
    (h : occursIn pat s = true) : occursIn rep (replaceAll s pat rep) = true :=
  replaceAllF_occurs_rep rep s.length s pat le_rfl hp h

theorem getD1_eq_one (l : List (String × ℤ)) (s : String)
    (h : s ∉ l.map Prod.fst) : getD1 l s = 1 := by
  induction l with
  | nil => rfl
  | cons p t ih =>
    obtain ⟨k, v⟩ := p
    simp only [List.map_cons, List.mem_cons] at h
    push_neg at h
    simp only [getD1]
    rw [if_neg h.1]
    exact ih h.2

theorem normCur_cases (c : String) (hne : c ≠ "") :
    occursIn "inr".data (normCur (some c)).data = true ∨
      (normCur (some c)).data = (lowerStr c).data := by
  have hor : pyOrStr c "INR" = c := by simp [pyOrStr, hne]
  unfold normCur
  rw [Option.getD_some, hor]
  by_cases h1 : occursIn "rs.".data (lowerStr c).data = true
  · have hs1 : occursIn "inr".data
        (replaceAll (lowerStr c).data "rs.".data "inr".data) = true :=
      replaceAll_occurs_rep _ _ _ (by decide) h1
    by_cases h2 : occursIn "rs".data
        (replaceAll (lowerStr c).data "rs.".data "inr".data) = true
    · exact Or.inl (replaceAll_occurs_rep _ _ _ (by decide) h2)
    · rw [replaceAll_of_not_occurs _ _ _ (Bool.eq_false_iff.mpr h2)]
      exact Or.inl hs1
  · rw [replaceAll_of_not_occurs _ _ _ (Bool.eq_false_iff.mpr h1)]
    by_cases h2 : occursIn "rs".data (lowerStr c).data = true
    · exact Or.inl (replaceAll_occurs_rep _ _ _ (by decide) h2)
    · rw [replaceAll_of_not_occurs _ _ _ (Bool.eq_false_iff.mpr h2)]
      exact Or.inr rfl

theorem curRate_eq_one_of_unknown (c : String)
    (h : lowerStr c ∉ KNOWN_CURRENCY_TOKENS) : curRate (some c) = 1 := by
  by_cases hce : c = ""
  · subst hce; decide
  · have key := normCur_cases c hce
    have hne : ∀ w : String, w ∈ KNOWN_CURRENCY_TOKENS →
        occursIn "inr".data w.data = false → normCur (some c) ≠ w := by
      intro w hw hocc heq
      have hdata : (normCur (some c)).data = w.data := by rw [heq]
      rcases key with hk | hk
      · rw [hdata] at hk
        rw [hk] at hocc
        cases hocc
      · apply h
        have : lowerStr c = w := congrArg String.mk (hk.symm.trans hdata)
        rw [this]
        exact hw
    unfold curRate
    rw [if_neg, if_neg, if_neg]
    · rintro (h1 | h1)
      · exact hne "£" (by decide) (by decide) h1
      · exact hne "gbp" (by decide) (by decide) h1
    · rintro (h1 | h1)
      · exact hne "€" (by decide) (by decide) h1
      · exact hne "eur" (by decide) (by decide) h1
    · rintro (h1 | h1)
      · exact hne "$" (by decide) (by decide) h1
      · exact hne "usd" (by decide) (by decide) h1

theorem digitChar_isDigit (n : ℕ) : (digitChar n).isDigit = true := by
  unfold digitChar
  split <;> decide

theorem natDigitsAux_digits :
    ∀ (fuel k : ℕ), ∀ c ∈ natDigitsAux fuel k, c.isDigit = true := by
  intro fuel
  induction fuel with
  | zero => intro k c hc; simp [natDigitsAux] at hc
  | succ n ih =>
    intro k c hc
    simp only [natDigitsAux] at hc
    split at hc
    · simp only [List.mem_singleton] at hc
      subst hc
      exact digitChar_isDigit k
    · rw [List.mem_append] at hc
      rcases hc with hc | hc
      · exact ih (k / 10) c hc
      · simp only [List.mem_singleton] at hc
        subst hc
        exact digitChar_isDigit (k % 10)

theorem natDigits_digits (n : ℕ) : ∀ c ∈ natDigits n, c.isDigit = true :=
  natDigitsAux_digits (n + 1) n

theorem natDigitsAux_ne_nil (fuel k : ℕ) (h : 1 ≤ fuel) :
    natDigitsAux fuel k ≠ [] := by
  cases fuel with
  | zero => omega
  | succ n =>
    simp only [natDigitsAux]
    split
    · simp
    · simp

theorem natDigits_ne_nil (n : ℕ) : natDigits n ≠ [] :=
  natDigitsAux_ne_nil (n + 1) n (by omega)

theorem natDigitsAux_small (fuel k : ℕ) (hf : 1 ≤ fuel) (hk : k < 10) :
    natDigitsAux fuel k = [digitChar k] := by
  cases fuel with
  | zero => omega
  | succ n => simp [natDigitsAux, hk]

theorem natDigits_two (m : ℕ) (h1 : 10 ≤ m) (h2 : m < 100) :
    natDigits m = [digitChar (m / 10), digitChar (m % 10)] := by
  unfold natDigits
  simp only [natDigitsAux, Nat.not_lt.mpr h1, if_neg (by omega : ¬ m < 10)]
  rw [natDigitsAux_small m (m / 10) (by omega) (by omega)]
  rfl

theorem natDigits_small (n : ℕ) (h : n < 10) : natDigits n = [digitChar n] :=
  natDigitsAux_small (n + 1) n (by omega) h

theorem natFmt2_shape (m : ℕ) :
    ∃ f1 f2 : Char, (natFmt2 m).data = natDigits (m / 100) ++ ['.', f1, f2] ∧
      f1.isDigit = true ∧ f2.isDigit = true := by
  unfold natFmt2
  by_cases h : m % 100 < 10
  · refine ⟨'0', digitChar (m % 100), ?_, by decide, digitChar_isDigit _⟩
    rw [if_pos h, natDigits_small _ h]
  · refine ⟨digitChar (m % 100 / 10), digitChar (m % 100 % 10), ?_,
      digitChar_isDigit _, digitChar_isDigit _⟩
    rw [if_neg h, natDigits_two (m % 100) (by omega) (by omega)]

theorem takeWhile_append_stop (p : Char → Bool) (xs : List Char) (y : Char)
    (ys : List Char) (hxs : ∀ x ∈ xs, p x = true) (hy : p y = false) :
    (xs ++ y :: ys).takeWhile p = xs := by
  induction xs with
  | nil => simp [List.takeWhile_cons, hy]
  | cons x t ih =>
    have hx := hxs x (by simp)
    have ht := ih (fun z hz => hxs z (by simp [hz]))
    simp [List.takeWhile_cons, hx, ht]

theorem string_data_append (s t : String) : (s ++ t).data = s.data ++ t.data :=
  rfl

theorem rheDiv_nonneg (a b : ℤ) (ha : 0 ≤ a) (hb : 0 < b) : 0 ≤ rheDiv a b := by
  have hf : 0 ≤ Int.fdiv a b := Int.fdiv_nonneg ha (le_of_lt hb)
  simp only [rheDiv]
  split
  · exact hf
  · split
    · omega
    · split <;> omega

theorem unitFactor_eq_one (u : String) (h : lowerStr u ∉ UNIT.map Prod.fst) :
    unitFactor (some u) = 1 :=
  getD1_eq_one UNIT (lowerStr u) h

theorem isCanonicalDisplay_of_shape (s : String) (ip : List Char) (f1 f2 : Char)
    (hdata : s.data = ip ++ ['.', f1, f2, ' ', 'C', 'r'])
    (hip : ip ≠ []) (hdig : ∀ c ∈ ip, c.isDigit = true)
    (hf1 : f1.isDigit = true) (hf2 : f2.isDigit = true) :
    isCanonicalDisplay s = true := by
  unfold isCanonicalDisplay
  simp only [hdata]
  rw [takeWhile_append_stop _ _ _ _ hdig (by decide)]
  rw [List.drop_left]
  simp [hip, hf1, hf2]

theorem to_inr_cr_wellformed (a : Dec) (u c : Option String) (h : 0 ≤ a.toQ) :
    isCanonicalDisplay (to_inr_cr a u c) = true := by
  have hm : 0 ≤ a.m := by
    by_contra hneg
    push_neg at hneg
    have hlt : a.toQ < 0 := by
      unfold Dec.toQ
      apply div_neg_of_neg_of_pos _ (pow10_q_pos _)
      exact_mod_cast hneg
    linarith
  have hvm : 0 ≤ (to_inr_cr_val a u c).m :=
    mul_nonneg (mul_nonneg hm (unitFactor_pos u).le) (curRate_pos c).le
  set v := to_inr_cr_val a u c with hv
  set n := rheDiv (v.m * 100) (pow10 v.e) with hnd
  have hn : 0 ≤ n :=
    rheDiv_nonneg _ _ (mul_nonneg hvm (by norm_num)) (pow10_pos _)
  have hfmt : fmt2 v = natFmt2 n.toNat := by
    simp only [fmt2, ← hnd]
    rw [if_neg (by omega)]
  obtain ⟨f1, f2, hshape, hf1, hf2⟩ := natFmt2_shape n.toNat
  have hdata : (to_inr_cr a u c).data =
      natDigits (n.toNat / 100) ++ '.' :: f1 :: f2 :: [' ', 'C', 'r'] := by
    show ((fmt2 v) ++ " Cr").data = _
    rw [string_data_append, hfmt, hshape]
    simp
  exact isCanonicalDisplay_of_shape _ _ f1 f2 hdata (natDigits_ne_nil _)
    (natDigits_digits _) hf1 hf2

/-- C6: each unknown token is treated exactly as absent, independently of
the other argument: for every amount, an unknown magnitude token with an
arbitrary currency gives the same result as no magnitude token (factor 1),
and an unknown currency token with an arbitrary magnitude gives the same
result as no currency token (rate 1); and for every nonnegative amount and
arbitrary unit/currency arguments the result is a well-formed canonical
display string (the function is total, never an error). -/
theorem C6_unknown_tokens_lenient :
    (∀ (a : Dec) (u : String) (c : Option String),
        lowerStr u ∉ UNIT.map Prod.fst →
        to_inr_cr a (some u) c = to_inr_cr a none c) ∧
    (∀ (a : Dec) (u : Option String) (c : String),
        lowerStr c ∉ KNOWN_CURRENCY_TOKENS →
        to_inr_cr a u (some c) = to_inr_cr a u none) ∧
    (∀ (a : Dec) (u c : Option String), 0 ≤ a.toQ →
        isCanonicalDisplay (to_inr_cr a u c) = true) := by
  refine ⟨?_, ?_, to_inr_cr_wellformed⟩
  · intro a u c hu
    unfold to_inr_cr to_inr_cr_val
    rw [unitFactor_eq_one u hu, (by decide : unitFactor none = 1)]
  · intro a u c hc
    unfold to_inr_cr to_inr_cr_val
    rw [curRate_eq_one_of_unknown c hc, (by decide : curRate none = 1)]

/-- C6 (witness): the unknown unit `"zorb"` next to the known currency
`"usd"` behaves as an absent unit, the unknown currency `"qq"` next to the
known unit `"crore"` behaves as an absent currency, and the result on the
concrete amount 7 is a well-formed display string. -/
theorem C6_witness :
    to_inr_cr ⟨7, 0⟩ (some "zorb") (some "usd") = to_inr_cr ⟨7, 0⟩ none (some "usd") ∧
    to_inr_cr ⟨7, 0⟩ (some "crore") (some "qq") = to_inr_cr ⟨7, 0⟩ (some "crore") none ∧
    isCanonicalDisplay (to_inr_cr ⟨7, 0⟩ (some "zorb") (some "qq")) = true :=
  ⟨C6_unknown_tokens_lenient.1 ⟨7, 0⟩ "zorb" (some "usd") (by decide),
   C6_unknown_tokens_lenient.2.1 ⟨7, 0⟩ (some "crore") "qq" (by decide),
   C6_unknown_tokens_lenient.2.2 ⟨7, 0⟩ (some "zorb") (some "qq") (by
     unfold Dec.toQ pow10
     norm_num)⟩

set_option maxRecDepth 10000

/-- C2 (amended): the range extractor requires a literal `to` or `-`
separator between the bounds. On `"revenue between 10 crore to 20 crore"`
it returns `"15.00 Cr"`, the arithmetic mean of the two canonicalized
bounds; on `"revenue between 10 crore and 20 crore"` the `and` separator
does not match the pattern and the extractor returns the empty string. -/
theorem C2_range_extractor_mean :
    extract_range_turnover_in_cr "revenue between 10 crore to 20 crore" = "15.00 Cr" ∧
    extract_range_turnover_in_cr "revenue between 10 crore and 20 crore" = "" := by
  constructor <;> decide

/-- C2 (counterexample): on the claimed input
`"revenue between 10 crore and 20 crore"` the range extractor returns `""`,
not `"15.00 Cr"`: the pattern's separator alternation is `to|-` and the word
`and` matches neither. -/
theorem C2_counterexample :
    extract_range_turnover_in_cr "revenue between 10 crore and 20 crore" = "" ∧
    extract_range_turnover_in_cr "revenue between 10 crore and 20 crore" ≠ "15.00 Cr" := by
  constructor <;> decide

/-- C10 (amended): the pattern's unit alternation lists `mn`, but the
alternative `m` precedes it and everything after the unit group is optional,
so on text containing `mn` the captured unit is `m` — which is in the
unit-factor table with factor 1,000,000 — and the extracted canonical value
is million-scaled. The literal identity
`to_inr_cr(amount, "mn", currency) = to_inr_cr(amount, None, currency)`
does hold (`mn` is absent from the table), but the extractor never passes
`mn` to the normalizer. -/
theorem C10_mn_captured_as_m :
    (∀ (a : Dec) (c : Option String), to_inr_cr a (some "mn") c = to_inr_cr a none c) ∧
    (moneyFinditer (lowOf "revenue 2 mn")).map (fun m => m.unit) = [some "m".data] ∧
    extract_turnover_in_cr "revenue 2 mn" = "0.20 Cr" := by
  refine ⟨?_, by decide, by decide⟩
  intro a c
  unfold to_inr_cr to_inr_cr_val
  rw [(by decide : unitFactor (some "mn") = 1), (by decide : unitFactor none = 1)]

/-- C10 (counterexample): on `"revenue 2 mn"` the extractor's value is the
million-scaled `"0.20 Cr"`, not the factor-1 value
`to_inr_cr(2, None, None) = "0.00 Cr"` the claim predicts. -/
theorem C10_counterexample :
    extract_turnover_in_cr "revenue 2 mn" = "0.20 Cr" ∧
    to_inr_cr (parseDec "2".data) none none = "0.00 Cr" ∧
    extract_turnover_in_cr "revenue 2 mn" ≠ to_inr_cr (parseDec "2".data) none none := by
  refine ⟨by decide, by decide, by decide⟩

theorem Dec.toQ_mk_zero (n : ℤ) : (⟨n, 0⟩ : Dec).toQ = (n : ℚ) := by
  unfold Dec.toQ pow10
  norm_num

theorem Dec.add_toQ (x y : Dec) : (x.add y).toQ = x.toQ + y.toQ := by
  unfold Dec.add Dec.toQ
  have h1 : ((pow10 x.e : ℤ) : ℚ) ≠ 0 := ne_of_gt (pow10_q_pos _)
  have h2 : ((pow10 y.e : ℤ) : ℚ) ≠ 0 := ne_of_gt (pow10_q_pos _)
  rw [pow10_add]
  push_cast
  field_simp

theorem matchScore_toQ (low : List Char) (m : MMatch) :
    (matchScore low m).toQ =
      1 + (if m.unit.isSome then 1 else 0) +
        (if (curOf m).isSome then 1/2 else 0) +
        (if scoreGate (windowOf low m) then 1 else 0) := by
  unfold matchScore
  rw [Dec.add_toQ, Dec.add_toQ, Dec.add_toQ, Dec.toQ_mk_zero]
  have e1 : (if m.unit.isSome then (⟨1, 0⟩ : Dec) else ⟨0, 0⟩).toQ =
      (if m.unit.isSome then (1 : ℚ) else 0) := by
    split <;> rw [Dec.toQ_mk_zero] <;> norm_num
  have e2 : (if (curOf m).isSome then (⟨5, 1⟩ : Dec) else ⟨0, 0⟩).toQ =
      (if (curOf m).isSome then (1 / 2 : ℚ) else 0) := by
    split
    · unfold Dec.toQ pow10; norm_num
    · rw [Dec.toQ_mk_zero]; norm_num
  have e3 : (if scoreGate (windowOf low m) then (⟨1, 0⟩ : Dec) else ⟨0, 0⟩).toQ =
      (if scoreGate (windowOf low m) then (1 : ℚ) else 0) := by
    split <;> rw [Dec.toQ_mk_zero] <;> norm_num
  rw [e1, e2, e3]
  push_cast
  ring

theorem one_le_matchScore (low : List Char) (m : MMatch) :
    (1 : ℚ) ≤ (matchScore low m).toQ := by
  rw [matchScore_toQ]
  split_ifs <;> norm_num

theorem keepSize_iff (m : MMatch) :
    keepSize m = true ↔
      (m.unit ≠ none ∨ curOf m ≠ none ∨ (1000000 : ℚ) ≤ (numValOf m).toQ) := by
  unfold keepSize
  rw [Bool.or_eq_true, Bool.or_eq_true, Option.isSome_iff_ne_none,
    Option.isSome_iff_ne_none, Bool.not_eq_true']
  have : ((numValOf m).blt ⟨1000000, 0⟩ = false) ↔
      (1000000 : ℚ) ≤ (numValOf m).toQ := by
    rw [← Bool.not_eq_true, Dec.blt_iff, Dec.toQ_mk_zero, not_lt]
    norm_num
  rw [this, or_assoc]

theorem foldl_loopStep_eq (low : List Char) :
    ∀ (l : List MMatch) (acc : String × Dec),
      l.foldl (loopStep low) acc =
        ((l.filter (keepGate low)).filter keepSize).foldl (pickStep low) acc := by
  intro l
  induction l with
  | nil => intro acc; rfl
  | cons m tl ih =>
    intro acc
    by_cases h1 : keepGate low m = true
    · by_cases h2 : keepSize m = true
      · simp only [List.foldl_cons, List.filter_cons, h1, h2, if_pos]
        rw [show loopStep low acc m = pickStep low acc m by
          unfold loopStep; rw [if_pos h1, if_pos h2]]
        exact ih _
      · simp only [List.foldl_cons, List.filter_cons, h1, h2, if_pos,
          Bool.false_eq_true, if_false]
        rw [show loopStep low acc m = acc by
          unfold loopStep; rw [if_pos h1, if_neg (by simp [h2])]]
        exact ih _
    · simp only [List.foldl_cons, List.filter_cons, h1, Bool.false_eq_true, if_false]
      rw [show loopStep low acc m = acc by
        unfold loopStep; rw [if_neg (by simp [h1])]]
      exact ih _

theorem extract_eq_pickFold (t : String) :
    extract_turnover_in_cr t =
      ((survivingMatches t).foldl (pickStep (lowOf t)) ("", ⟨-1, 0⟩)).1 := by
  simp only [extract_turnover_in_cr, survivingMatches, gatedMatches]
  rw [foldl_loopStep_eq]

theorem foldl_pickStep_no_improve (low : List Char) :
    ∀ (l : List MMatch) (v0 : String) (s0 : Dec),
      (∀ m ∈ l, (matchScore low m).toQ ≤ s0.toQ) →
      l.foldl (pickStep low) (v0, s0) = (v0, s0) := by
  intro l
  induction l with
  | nil => intro v0 s0 _; rfl
  | cons a tl ih =>
    intro v0 s0 h
    have hb : ¬ (s0.blt (matchScore low a) = true) := fun hb =>
      absurd ((Dec.blt_iff _ _).mp hb) (not_lt.mpr (h a (by simp)))
    rw [List.foldl_cons, show pickStep low (v0, s0) a = (v0, s0) by
      unfold pickStep; rw [if_neg hb]]
    exact ih v0 s0 (fun m hm => h m (by simp [hm]))

theorem foldl_pickStep_first_best (low : List Char) :
    ∀ (l : List MMatch) (v0 : String) (s0 : Dec),
      (∃ m ∈ l, s0.toQ < (matchScore low m).toQ) →
      ∃ pre m post, l = pre ++ m :: post ∧
        s0.toQ < (matchScore low m).toQ ∧
        (∀ m2 ∈ pre, (matchScore low m2).toQ < (matchScore low m).toQ) ∧
        (∀ m2 ∈ l, (matchScore low m2).toQ ≤ (matchScore low m).toQ) ∧
        l.foldl (pickStep low) (v0, s0) = (matchVal m, matchScore low m) := by
  intro l
  induction l with
  | nil => rintro v0 s0 ⟨m, hm, _⟩; simp at hm
  | cons a tl ih =>
    intro v0 s0 hex
    by_cases ha : s0.toQ < (matchScore low a).toQ
    · have hba : s0.blt (matchScore low a) = true := (Dec.blt_iff _ _).mpr ha
      have hstep : pickStep low (v0, s0) a = (matchVal a, matchScore low a) := by
        unfold pickStep; rw [if_pos hba]
      by_cases htl : ∃ m ∈ tl, (matchScore low a).toQ < (matchScore low m).toQ
      · obtain ⟨pre, m, post, heq, hgt, hpre, hall, hfold⟩ :=
          ih (matchVal a) (matchScore low a) htl
        refine ⟨a :: pre, m, post, by simp [heq], lt_trans ha hgt, ?_, ?_, ?_⟩
        · intro m2 hm2
          rcases List.mem_cons.mp hm2 with h | h
          · subst h; exact hgt
          · exact hpre m2 h
        · intro m2 hm2
          rcases List.mem_cons.mp hm2 with h | h
          · subst h; exact le_of_lt hgt
          · exact hall m2 h
        · rw [List.foldl_cons, hstep]; exact hfold
      · push_neg at htl
        refine ⟨[], a, tl, rfl, ha, by simp, ?_, ?_⟩
        · intro m2 hm2
          rcases List.mem_cons.mp hm2 with h | h
          · subst h; exact le_refl _
          · exact htl m2 h
        · rw [List.foldl_cons, hstep]
          exact foldl_pickStep_no_improve low tl _ _ htl
    · have hba : ¬ (s0.blt (matchScore low a) = true) := fun hb =>
        absurd ((Dec.blt_iff _ _).mp hb) ha
      have hstep : pickStep low (v0, s0) a = (v0, s0) := by
        unfold pickStep; rw [if_neg hba]
      have hex2 : ∃ m ∈ tl, s0.toQ < (matchScore low m).toQ := by
        rcases hex with ⟨m, hm, hlt⟩
        rcases List.mem_cons.mp hm with h | h
        · subst h; exact absurd hlt ha
        · exact ⟨m, h, hlt⟩
      obtain ⟨pre, m, post, heq, hgt, hpre, hall, hfold⟩ := ih v0 s0 hex2
      refine ⟨a :: pre, m, post, by simp [heq], hgt, ?_, ?_, ?_⟩
      · intro m2 hm2
        rcases List.mem_cons.mp hm2 with h | h
        · subst h; exact lt_of_le_of_lt (not_lt.mp ha) hgt
        · exact hpre m2 h
      · intro m2 hm2
        rcases List.mem_cons.mp hm2 with h | h
        · subst h; exact le_of_lt (lt_of_le_of_lt (not_lt.mp ha) hgt)
        · exact hall m2 h
      · rw [List.foldl_cons, hstep]; exact hfold

/-- C5: each surviving match is scored base 1.0, +1.0 for a magnitude word,
+0.5 for a currency marker, +1.0 more when the context window contains the
word "turnover", "revenue", or the phrase "annual turnover"; the extractor
returns the canonical value of the highest-scoring surviving match, and on
ties the first such match in scan order (earlier matches strictly beat every
match before the winner). -/
theorem C5_scoring_and_selection :
    (∀ (low : List Char) (m : MMatch),
        (matchScore low m).toQ =
          1 + (if m.unit.isSome then 1 else 0) +
            (if (curOf m).isSome then 1/2 else 0) +
            (if scoreGate (windowOf low m) then 1 else 0)) ∧
    ∀ t : String,
      (survivingMatches t = [] → extract_turnover_in_cr t = "") ∧
      (survivingMatches t ≠ [] →
        ∃ pre m post, survivingMatches t = pre ++ m :: post ∧
          extract_turnover_in_cr t = matchVal m ∧
          (∀ m2 ∈ survivingMatches t,
            (matchScore (lowOf t) m2).toQ ≤ (matchScore (lowOf t) m).toQ) ∧
          (∀ m2 ∈ pre, (matchScore (lowOf t) m2).toQ < (matchScore (lowOf t) m).toQ)) := by
  refine ⟨matchScore_toQ, fun t => ⟨fun h => ?_, fun h => ?_⟩⟩
  · rw [extract_eq_pickFold, h]
    rfl
  · obtain ⟨a, tl, hl⟩ := List.exists_cons_of_ne_nil h
    have hex : ∃ m ∈ survivingMatches t, (⟨-1, 0⟩ : Dec).toQ < (matchScore (lowOf t) m).toQ := by
      refine ⟨a, by rw [hl]; simp, ?_⟩
      rw [Dec.toQ_mk_zero]
      calc ((-1 : ℤ) : ℚ) < 1 := by norm_num
        _ ≤ _ := one_le_matchScore _ _
    obtain ⟨pre, m, post, heq, _, hpre, hall, hfold⟩ :=
      foldl_pickStep_first_best (lowOf t) (survivingMatches t) "" ⟨-1, 0⟩ hex
    refine ⟨pre, m, post, heq, ?_, hall, hpre⟩
    rw [extract_eq_pickFold, hfold]

/-- C4: among the matches that pass the context-vocabulary gate, a match
with no magnitude word, no currency marker (leading or trailing) and a
numeric value strictly below 1,000,000 is discarded by the small-bare-number
filter; every other gated match survives it; and the extractor's result is
either empty or the canonical value of one of the surviving matches. -/
theorem C4_small_bare_number_filter :
    ∀ (t : String) (m : MMatch),
      (m ∈ gatedMatches t ∧ m.unit = none ∧ curOf m = none ∧
          (numValOf m).toQ < 1000000 → m ∉ survivingMatches t) ∧
      (m ∈ gatedMatches t ∧ (m.unit ≠ none ∨ curOf m ≠ none ∨
          (1000000 : ℚ) ≤ (numValOf m).toQ) → m ∈ survivingMatches t) ∧
      (extract_turnover_in_cr t = "" ∨
        ∃ m2 ∈ survivingMatches t, extract_turnover_in_cr t = matchVal m2) := by
  intro t m
  refine ⟨?_, ?_, ?_⟩
  · rintro ⟨_, hu, hc, hv⟩ hmem
    have hks : keepSize m = true := (List.mem_filter.mp hmem).2
    rcases (keepSize_iff m).mp hks with h | h | h
    · exact h hu
    · exact h hc
    · exact absurd hv (not_lt.mpr h)
  · rintro ⟨hg, hcond⟩
    exact List.mem_filter.mpr ⟨hg, (keepSize_iff m).mpr hcond⟩
  · by_cases h : survivingMatches t = []
    · left
      rw [extract_eq_pickFold, h]
      rfl
    · right
      obtain ⟨a, tl, hl⟩ := List.exists_cons_of_ne_nil h
      have hex : ∃ m2 ∈ survivingMatches t,
          (⟨-1, 0⟩ : Dec).toQ < (matchScore (lowOf t) m2).toQ := by
        refine ⟨a, by rw [hl]; simp, ?_⟩
        rw [Dec.toQ_mk_zero]
        calc ((-1 : ℤ) : ℚ) < 1 := by norm_num
          _ ≤ _ := one_le_matchScore _ _
      obtain ⟨pre, m2, post, heq, _, _, _, hfold⟩ :=
        foldl_pickStep_first_best (lowOf t) (survivingMatches t) "" ⟨-1, 0⟩ hex
      refine ⟨m2, by rw [heq]; simp, ?_⟩
      rw [extract_eq_pickFold, hfold]

/-- C5 (witness): the selection property instantiated on
`"turnover 5 cr"`, whose single surviving match (`5 cr`) wins. -/
theorem C5_witness :
    ∃ pre m post, survivingMatches "turnover 5 cr" = pre ++ m :: post ∧
      extract_turnover_in_cr "turnover 5 cr" = matchVal m ∧
      (∀ m2 ∈ survivingMatches "turnover 5 cr",
        (matchScore (lowOf "turnover 5 cr") m2).toQ ≤
          (matchScore (lowOf "turnover 5 cr") m).toQ) ∧
      (∀ m2 ∈ pre, (matchScore (lowOf "turnover 5 cr") m2).toQ <
          (matchScore (lowOf "turnover 5 cr") m).toQ) :=
  (C5_scoring_and_selection.2 "turnover 5 cr").2 (by decide)

/-- C4 (witness): in `"revenue 5"` the bare match `5` (no unit, no currency,
value below one million) is gated in but discarded by the size filter; in
`"turnover 5 cr"` the match `5 cr` carries a unit and survives. -/
theorem C4_witness :
    (⟨7, 9, "5".data, none, none, none⟩ : MMatch) ∉ survivingMatches "revenue 5" ∧
    (⟨8, 13, "5".data, some "cr".data, none, none⟩ : MMatch) ∈
      survivingMatches "turnover 5 cr" :=
  ⟨(C4_small_bare_number_filter "revenue 5" ⟨7, 9, "5".data, none, none, none⟩).1
    ⟨by decide, rfl, rfl, by
      rw [show numValOf ⟨7, 9, "5".data, none, none, none⟩ = ⟨5, 0⟩ from by decide,
        Dec.toQ_mk_zero]
      norm_num⟩,
   (C4_small_bare_number_filter "turnover 5 cr"
      ⟨8, 13, "5".data, some "cr".data, none, none⟩).2.1
     ⟨by decide, Or.inl (by decide)⟩⟩

theorem inferGo_first_match (hay : List Char) :
    ∀ (tbl : List (List String × (String × String × String))) (i : ℕ),
      i < tbl.length →
      groupHits hay (tbl.getD i ([], ("", "", ""))).1 = true →
      (∀ j, j < i → groupHits hay (tbl.getD j ([], ("", "", ""))).1 = false) →
      inferGo hay tbl = (tbl.getD i ([], ("", "", ""))).2 := by
  intro tbl
  induction tbl with
  | nil => intro i hi; simp at hi
  | cons p t ih =>
    intro i hi hhit hbefore
    obtain ⟨keys, mapped⟩ := p
    cases i with
    | zero =>
      simp only [List.getD_cons_zero] at hhit ⊢
      unfold inferGo
      rw [if_pos hhit]
    | succ n =>
      have h0 : groupHits hay keys = false := by
        have := hbefore 0 (by omega)
        simpa using this
      unfold inferGo
      rw [if_neg (by simp [h0])]
      simp only [List.getD_cons_succ] at hhit ⊢
      exact ih n (by simpa using hi) hhit
        (fun j hj => by simpa using hbefore (j + 1) (by omega))

theorem inferGo_all_miss (hay : List Char) :
    ∀ tbl : List (List String × (String × String × String)),
      (∀ g ∈ tbl, groupHits hay g.1 = false) →
      inferGo hay tbl = ("", "", "") := by
  intro tbl
  induction tbl with
  | nil => intro _; rfl
  | cons p t ih =>
    intro h
    obtain ⟨keys, mapped⟩ := p
    unfold inferGo
    rw [if_neg (by simp [h (keys, mapped) (by simp)])]
    exact ih (fun g hg => h g (by simp [hg]))

theorem estimateGo_default (c : List Char) :
    ∀ tbl : List (List String × ℤ),
      (∀ g ∈ tbl, groupHits c g.1 = false) →
      estimateGo c tbl = "10.00 Cr" := by
  intro tbl
  induction tbl with
  | nil => intro _; rfl
  | cons p t ih =>
    intro h
    obtain ⟨keys, v⟩ := p
    unfold estimateGo
    rw [if_neg (by simp [h (keys, v) (by simp)])]
    exact ih (fun g hg => h g (by simp [hg]))

theorem estimateGo_ne_empty (c : List Char) :
    ∀ tbl : List (List String × ℤ), estimateGo c tbl ≠ "" := by
  intro tbl
  induction tbl with
  | nil =>
    intro h
    have := congrArg String.data h
    simp [estimateGo] at this
  | cons p t ih =>
    obtain ⟨keys, v⟩ := p
    unfold estimateGo
    split
    · intro h
      have := congrArg String.data h
      rw [string_data_append] at this
      simp at this
    · exact ih

/-- C8: category inference is first-match-wins over the fixed priority order
of `NAME_MAP`: whenever group `i` matches and every earlier group does not,
the result is group `i`'s triple; in particular an input containing both
"chemical" and "logistics" (and not matching the earlier paint/coating
group) deterministically resolves to the chemical group's triple. -/
theorem C8_category_priority :
    (∀ (company text : String) (i : ℕ), i < NAME_MAP.length →
      groupHits (lowerStr (company ++ " " ++ text)).data
        (NAME_MAP.getD i ([], ("", "", ""))).1 = true →
      (∀ j, j < i → groupHits (lowerStr (company ++ " " ++ text)).data
        (NAME_MAP.getD j ([], ("", "", ""))).1 = false) →
      infer_category company text = (NAME_MAP.getD i ([], ("", "", ""))).2) ∧
    (∀ company text : String,
      occursIn "chemical".data (lowerStr (company ++ " " ++ text)).data = true →
      occursIn "logistics".data (lowerStr (company ++ " " ++ text)).data = true →
      groupHits (lowerStr (company ++ " " ++ text)).data ["paint", "coating"] = false →
      infer_category company text = ("Manufacturing", "Industrial", "industrial chemicals")) := by
  constructor
  · intro company text i hi hhit hbefore
    exact inferGo_first_match _ NAME_MAP i hi hhit hbefore
  · intro company text hchem _ hpaint
    have h1 := inferGo_first_match (lowerStr (company ++ " " ++ text)).data NAME_MAP 1
      (by decide) (by simp [NAME_MAP, groupHits, hchem])
      (fun j hj => by
        interval_cases j
        simpa [NAME_MAP] using hpaint)
    exact h1

/-- C8 (witness): a concrete name containing both "chemical" and
"logistics" resolves to the chemical triple. -/
theorem C8_witness :
    infer_category "abc chemical logistics" "" =
      ("Manufacturing", "Industrial", "industrial chemicals") :=
  C8_category_priority.2 "abc chemical logistics" "" (by decide) (by decide) (by decide)

theorem pyIf_ne_empty (a b : String) (hb : b ≠ "") :
    (if a = "" then b else a) ≠ "" := by
  split
  · exact hb
  · next h => exact h

/-- C7: with network evidence disabled (`FAST_MODE`), a record with an empty
raw turnover field whose name matches no estimator keyword group and no
category keyword group is enriched with the fixed default estimate
`"10.00 Cr"` and empty category fields; and every record's enrichment
yields a non-empty `turnover_in_cr`. -/
theorem C7_fallback_guarantee :
    ∀ (name city raw : String),
      ((∀ g ∈ ESTIMATE_BY_KEYWORD, groupHits (lowerStr name).data g.1 = false) →
       (∀ g ∈ NAME_MAP, groupHits (lowerStr (name ++ " " ++ "")).data g.1 = false) →
       process_one ⟨name, city, ""⟩ = ⟨name, city, "10.00 Cr", "", "", ""⟩) ∧
      (process_one ⟨name, city, raw⟩).turnover_in_cr ≠ "" := by
  intro name city raw
  have h1 : pyOrStr (extract_turnover_in_cr "") (extract_range_turnover_in_cr "") = "" := by
    decide
  constructor
  · intro hest hcat
    unfold process_one
    simp only [h1, ite_self, ne_eq, not_true_eq_false, and_false, if_false, if_true]
    unfold estimate_turnover_in_cr infer_category
    rw [estimateGo_default _ _ hest, inferGo_all_miss _ _ hcat]
  · unfold process_one
    exact pyIf_ne_empty _ _ (estimateGo_ne_empty _ _)

/-- C7 (witness): the fallback at the concrete record
`("Acme Foods", "Pune", "")`, whose name matches no keyword group. -/
theorem C7_witness :
    process_one ⟨"Acme Foods", "Pune", ""⟩ =
      ⟨"Acme Foods", "Pune", "10.00 Cr", "", "", ""⟩ ∧
    (process_one ⟨"Acme Foods", "Pune", "some text"⟩).turnover_in_cr ≠ "" :=
  ⟨(C7_fallback_guarantee "Acme Foods" "Pune" "").1 (by decide) (by decide),
   (C7_fallback_guarantee "Acme Foods" "Pune" "some text").2⟩

/-- C9 (amended): the row parser matches the name column under the aliases
`company_name`/`name` and the turnover column under
`turnover`/`revenue`/`annual_turnover`/`turnover_in_cr` with exact
(case-sensitive) column-name matching; every row whose name or city is
missing or blank after trimming is silently excluded, and every other row is
retained, in order, as the record of its parsed fields. -/
theorem C9_row_parsing :
    (∀ reader : List Row, read_rows_from_reader reader = reader.filterMap parseRow) ∧
    (∀ row : Row, parseRow row = none ↔ (nameOfRow row = "" ∨ cityOfRow row = "")) ∧
    (∀ row : Row, nameOfRow row ≠ "" → cityOfRow row ≠ "" →
        parseRow row = some ⟨nameOfRow row, cityOfRow row, rawOfRow row⟩) := by
  refine ⟨fun reader => rfl, fun row => ?_, fun row hn hc => ?_⟩
  · unfold parseRow
    split
    · next h => simp [h.1, h.2]
    · next h =>
      push_neg at h
      constructor
      · intro _
        by_cases hn : nameOfRow row = ""
        · exact Or.inl hn
        · exact Or.inr (h hn)
      · intro _; rfl
  · unfold parseRow
    rw [if_pos ⟨hn, hc⟩]

/-- C9 (counterexample): column matching is case-sensitive, not
case-insensitive as claimed: a row keyed `"Name"` (capital N) is dropped,
while the same row keyed `"name"` is retained. -/
theorem C9_counterexample :
    read_rows_from_reader [[("Name", "Acme"), ("city", "Pune")]] = [] ∧
    read_rows_from_reader [[("name", "Acme"), ("city", "Pune")]] =
      [⟨"Acme", "Pune", ""⟩] := by
  constructor <;> decide

/-- C9 (witness): the retention clause applied to a concrete row with
blank-padded fields. -/
theorem C9_witness :
    parseRow [("company_name", " C "), ("city", " D "), ("revenue", " 5 cr ")] =
      some ⟨nameOfRow [("company_name", " C "), ("city", " D "), ("revenue", " 5 cr ")],
        cityOfRow [("company_name", " C "), ("city", " D "), ("revenue", " 5 cr ")],
        rawOfRow [("company_name", " C "), ("city", " D "), ("revenue", " 5 cr ")]⟩ :=
  C9_row_parsing.2.2 [("company_name", " C "), ("city", " D "), ("revenue", " 5 cr ")]
    (by decide) (by decide)

theorem scatter_apply (rows : List InputRecord) :
    ∀ (order : List ℕ) (f0 : ℕ → Option OutputRecord) (j : ℕ),
      (order.foldl (fun f i => Function.update f i
          (some (process_one (rows.getD i ⟨"", "", ""⟩)))) f0) j =
        if j ∈ order then some (process_one (rows.getD j ⟨"", "", ""⟩)) else f0 j := by
  intro order
  induction order with
  | nil => intro f0 j; simp
  | cons i t ih =>
    intro f0 j
    rw [List.foldl_cons, ih]
    by_cases hjt : j ∈ t
    · rw [if_pos hjt, if_pos (by simp [hjt])]
    · rw [if_neg hjt]
      by_cases hji : j = i
      · subst hji
        rw [if_pos (by simp), Function.update_apply, if_pos rfl]
      · rw [if_neg (by simp [hji, hjt]), Function.update_apply, if_neg hji]

theorem map_range_getD (l : List InputRecord) :
    (List.range l.length).map
        (fun j => some (process_one (l.getD j ⟨"", "", ""⟩))) =
      l.map (fun r => some (process_one r)) := by
  induction l with
  | nil => rfl
  | cons r t ih =>
    rw [List.length_cons, List.range_succ_eq_map]
    simp only [List.map_cons, List.map_map, List.getD_cons_zero]
    refine congrArg _ ?_
    rw [← ih]
    apply List.map_congr_left
    intro j _
    simp [Function.comp, List.getD_cons_succ]

/-- C3: for every input list and every completion order of the concurrent
per-record futures (any permutation of the indices), the orchestrator's
output is the list of per-record enrichment results in input order — the
element at index `i` is exactly `process_one` of record `i` — and it has
the same length as the input. -/
theorem C3_order_invariant :
    ∀ (rows : List InputRecord) (order : List ℕ),
      order.Perm (List.range rows.length) →
      process_rows_completion rows order = rows.map (fun r => some (process_one r)) ∧
      (process_rows_completion rows order).length = rows.length := by
  intro rows order hperm
  have hmain : process_rows_completion rows order =
      rows.map (fun r => some (process_one r)) := by
    unfold process_rows_completion
    have hstep : ∀ j ∈ List.range rows.length,
        (order.foldl (fun f i => Function.update f i
            (some (process_one (rows.getD i ⟨"", "", ""⟩)))) (fun _ => none)) j =
          some (process_one (rows.getD j ⟨"", "", ""⟩)) := by
      intro j hj
      rw [scatter_apply rows order _ j,
        if_pos (hperm.mem_iff.mpr hj)]
    rw [List.map_congr_left hstep]
    exact map_range_getD rows
  exact ⟨hmain, by rw [hmain, List.length_map]⟩

/-- C3 (witness): two records processed with the completion order reversed
still produce the outputs in input order. -/
theorem C3_witness :
    process_rows_completion [⟨"A", "B", ""⟩, ⟨"C", "D", ""⟩] [1, 0] =
      ([⟨"A", "B", ""⟩, ⟨"C", "D", ""⟩] : List InputRecord).map
        (fun r => some (process_one r)) :=
  (C3_order_invariant [⟨"A", "B", ""⟩, ⟨"C", "D", ""⟩] [1, 0]
    (by
      rw [show List.range
          ([⟨"A", "B", ""⟩, ⟨"C", "D", ""⟩] : List InputRecord).length =
        [0, 1] from rfl]
      exact List.Perm.swap 0 1 [])).1
